import Mathlib

/-!
Verification development for the relation-mapping and lifecycle-hook layer of
the xorm `BaseModel` (src/src/model.js).

The JavaScript class is shallowly embedded as follows.

* A record-kind descriptor (a model class) is a `Nat` identifier; a `ModelEnv`
  maps each identifier to its static, declaration-time data (`ClassInfo`):
  its class `name`, its resolved `idColumn`, its `timestamps` flag, its
  prototype chain of ancestor classes (`ancestors`, nearest first), and the
  body of its own static `$relations` hook (`hook`, `none` when the class does
  not define one).
* The mutable static slots `_tableName` and `_relationMappings` live in an
  `MState`: association lists from class identifier to the slot's value.  An
  absent key models an absent JavaScript own-property.  Reading `this._x` in
  JavaScript walks the prototype chain, which `chainFind` reproduces;
  assignment always creates/overwrites the own property of `this`, which
  `alistPut` on the class's own key reproduces.
* Relation targets are passed as direct class references (the
  `_getModelClass` identity branch); the string/module-resolution branch is an
  external module-loading collaborator and is not exercised here.
* `new Date()` values are modelled as `Nat` timestamps supplied as explicit
  arguments to the hooks, constrained by monotonicity hypotheses where a
  theorem speaks about wall-clock bounds.  The `super.$beforeInsert` /
  `super.$beforeUpdate` calls go to the external persistence engine whose
  default hooks are documented no-ops, so they are modelled as the identity.
* Filters are opaque tokens modelled as `String`s; JavaScript truthiness of a
  string option (`x || d`) is modelled by `jsOr` (empty string and absence are
  falsy).  Arrays (the `extra` column list) are always truthy in JavaScript,
  so `options.through.extra || null` is the identity on the option.
-/

namespace Xorm

/-- Relation constructor tokens provided by the external persistence engine
(objection's `Model.BelongsToOneRelation` and friends). -/
inductive RelKind where
  | BelongsToOneRelation
  | HasOneRelation
  | HasManyRelation
  | ManyToManyRelation
deriving DecidableEq, Repr

/-- The `through` object stored inside a `ManyToManyRelation` mapping:
`{from, to, modelClass, extra, filter}` in the source. -/
structure ThroughSpec where
  throughFrom : String
  throughTo : String
  modelClass : Option Nat
  extra : Option (List String)
  filter : Option String
deriving DecidableEq, Repr

/-- One entry of `_relationMappings`: `{relation, modelClass, filter,
join: {from, to[, through]}}` in the source. -/
structure RelationMapping where
  relation : RelKind
  modelClass : Nat
  filter : Option String
  joinFrom : String
  joinTo : String
  through : Option ThroughSpec
deriving DecidableEq, Repr

/-- A `_relationMappings` slot value: a name-keyed record, modelled as an
insertion-ordered association list. -/
abbrev Mappings := List (String × RelationMapping)

/-- The optional `options.through` object of `hasManyThrough`. -/
structure ThroughOptions where
  model : Option Nat := none
  table : Option String := none
  fromCol : Option String := none
  toCol : Option String := none
  extra : Option (List String) := none
  filter : Option String := none
deriving DecidableEq, Repr

/-- The `options.through || {}` fallback object. -/
def emptyThroughOptions : ThroughOptions := {}

/-- The `options` argument of the four relation builders. -/
structure RelOptions where
  name : Option String := none
  joinFrom : Option String := none
  joinTo : Option String := none
  filter : Option String := none
  through : Option ThroughOptions := none
deriving DecidableEq, Repr

/-- Calling a builder with no options object (`options = {}`). -/
def defaultOpts : RelOptions := {}

/-- One call made inside a class's `$relations` hook body. -/
inductive RelDecl where
  | belongsTo (target : Nat) (opts : RelOptions)
  | hasOne (target : Nat) (opts : RelOptions)
  | hasMany (target : Nat) (opts : RelOptions)
  | hasManyThrough (target : Nat) (opts : RelOptions)
deriving DecidableEq, Repr

/-- Static, declaration-time data of one model class. -/
structure ClassInfo where
  name : String
  idColumn : String := "id"
  timestamps : Bool := true
  ancestors : List Nat := []
  hook : Option (List RelDecl) := none
deriving DecidableEq, Repr

/-- The collection of model classes of a program run. -/
abbrev ModelEnv := Nat → ClassInfo

/-- The mutable static slots: `_tableName` and `_relationMappings` own
properties per class. -/
structure MState where
  tn : List (Nat × String) := []
  rm : List (Nat × Mappings) := []
deriving DecidableEq, Repr

/-- The empty initial state: no class has resolved a table name or a relation
graph yet. -/
def initState : MState := {}

/-- JavaScript property assignment on an association list: overwrite the
existing key in place, else append. -/
def alistPut {κ β : Type} [BEq κ] (l : List (κ × β)) (k : κ) (v : β) : List (κ × β) :=
  match l with
  | [] => [(k, v)]
  | p :: rest => if p.1 == k then (k, v) :: rest else p :: alistPut rest k v

/-- JavaScript property read along a prototype chain: the value at the first
class of the chain owning the property. -/
def chainFind {β : Type} (l : List (Nat × β)) : List Nat → Option β
  | [] => none
  | i :: is =>
    match l.lookup i with
    | some v => some v
    | none => chainFind l is

/-- The prototype chain of a class, the class itself first. -/
def chainOf (env : ModelEnv) (c : Nat) : List Nat := c :: (env c).ancestors

/-- JavaScript `x || d` for an optional string `x`: absent and empty strings
are falsy. -/
def jsOr (o : Option String) (d : String) : String :=
  match o with
  | some s => if s = "" then d else s
  | none => d

/-- JavaScript `x || null` for an optional string-valued filter token. -/
def jsOrNull (o : Option String) : Option String :=
  match o with
  | some s => if s = "" then none else some s
  | none => none

/-- JavaScript short-circuit `x || d` where the default `d` is an effectful
expression (it may read table-name getters and hence mutate state): `d` is
evaluated only when `x` is falsy. -/
def defaultOr (o : Option String) (d : MState → String × MState) (σ : MState) : String × MState :=
  match o with
  | some s => if s = "" then d σ else (s, σ)
  | none => d σ

/-- Modelled from the spec: the external case-conversion collaborator's
lower-camel-case (`_.camelCase`, §4.1), modelled for single-word record-kind
names as lowercasing the first character (example of §4.1: `"Person"` to
`"person"`). -/
def camelCase (s : String) : String :=
  match s.data with
  | [] => ""
  | ch :: rest => String.mk (Char.toLower ch :: rest)

/-- The external case-conversion collaborator's `_.upperFirst`: uppercase the
first character. -/
def upperFirst (s : String) : String :=
  match s.data with
  | [] => ""
  | ch :: rest => String.mk (Char.toUpper ch :: rest)

/-- Modelled from the spec: the pluralization heuristic exported by
`./utils` (a repository file not present under src/): best-effort English
pluralization (§4.1), modelled as appending `"s"`. -/
def plural (s : String) : String := s ++ "s"

/-- The `tableName` static getter:
`this._tableName = this._tableName || this.name; return this._tableName`.
The read of `this._tableName` walks the prototype chain; the assignment and
the returning re-read hit the class's own slot. -/
def tableName (env : ModelEnv) (σ : MState) (c : Nat) : String × MState :=
  let s :=
    match chainFind σ.tn (chainOf env c) with
    | some t => if t = "" then (env c).name else t
    | none => (env c).name
  (s, { σ with tn := alistPut σ.tn c s })

/-- The `tableName` static setter: `this._tableName = table`. -/
def setTableName (σ : MState) (c : Nat) (t : String) : MState :=
  { σ with tn := alistPut σ.tn c t }

/-- The `relationMappings` static setter: `this._relationMappings = mappings`. -/
def setRelationMappings (σ : MState) (c : Nat) (ms : Mappings) : MState :=
  { σ with rm := alistPut σ.rm c ms }

/-- `this._relationMappings[name] = {...}`: the read of
`this._relationMappings` walks the prototype chain to the first class owning
the slot, and the indexed assignment mutates that object in place.  When no
class in the chain owns the slot the read yields `undefined` and the indexed
assignment throws (`none`). -/
def findOwnerSlot (l : List (Nat × Mappings)) : List Nat → Option (Nat × Mappings)
  | [] => none
  | i :: is =>
    match l.lookup i with
    | some ms => some (i, ms)
    | none => findOwnerSlot l is

/-- Store a completed mapping under its name, mutating the first owned
`_relationMappings` slot along the prototype chain. -/
def storeMapping (env : ModelEnv) (σ : MState) (c : Nat) (nm : String) (m : RelationMapping) :
    Option MState :=
  match findOwnerSlot σ.rm (chainOf env c) with
  | some (i, ms) => some { σ with rm := alistPut σ.rm i (alistPut ms nm m) }
  | none => none

/-- The computation part of `static belongsTo(model, options)`: the mapping
name, the mapping object, and the state after the table-name getter reads.
Evaluation order follows the source: `name`, then `joinFrom` (reading the
target's `tableName` getter only when no truthy override is given), then
`joinTo` (reading the owner's `tableName` getter likewise). -/
def belongsToCompute (env : ModelEnv) (σ : MState) (owner target : Nat) (opts : RelOptions) :
    (String × RelationMapping) × MState :=
  let nm := jsOr opts.name (camelCase (env target).name)
  let p1 := defaultOr opts.joinFrom
    (fun s => ((tableName env s target).1 ++ "." ++ camelCase (env owner).name
        ++ upperFirst (env owner).idColumn, (tableName env s target).2)) σ
  let p2 := defaultOr opts.joinTo
    (fun s => ((tableName env s owner).1 ++ "." ++ (env owner).idColumn,
        (tableName env s owner).2)) p1.2
  ((nm, { relation := RelKind.BelongsToOneRelation, modelClass := target,
          filter := jsOrNull opts.filter, joinFrom := p1.1, joinTo := p2.1,
          through := none }), p2.2)

/-- `static belongsTo`: compute the mapping, then store it under its name. -/
def belongsTo (env : ModelEnv) (σ : MState) (owner target : Nat) (opts : RelOptions) :
    Option MState :=
  let p := belongsToCompute env σ owner target opts
  storeMapping env p.2 owner p.1.1 p.1.2

/-- The computation part of `static hasOne(model, options)`: `joinFrom` reads
the owner's `tableName` getter, `joinTo` the target's. -/
def hasOneCompute (env : ModelEnv) (σ : MState) (owner target : Nat) (opts : RelOptions) :
    (String × RelationMapping) × MState :=
  let nm := jsOr opts.name (camelCase (env target).name)
  let p1 := defaultOr opts.joinFrom
    (fun s => ((tableName env s owner).1 ++ "." ++ camelCase (env target).name
        ++ upperFirst (env target).idColumn, (tableName env s owner).2)) σ
  let p2 := defaultOr opts.joinTo
    (fun s => ((tableName env s target).1 ++ "." ++ (env target).idColumn,
        (tableName env s target).2)) p1.2
  ((nm, { relation := RelKind.HasOneRelation, modelClass := target,
          filter := jsOrNull opts.filter, joinFrom := p1.1, joinTo := p2.1,
          through := none }), p2.2)

/-- `static hasOne`: compute the mapping, then store it under its name. -/
def hasOne (env : ModelEnv) (σ : MState) (owner target : Nat) (opts : RelOptions) :
    Option MState :=
  let p := hasOneCompute env σ owner target opts
  storeMapping env p.2 owner p.1.1 p.1.2

/-- The computation part of `static hasMany(model, options)`: the name is
pluralized; `joinFrom` reads the target's `tableName` getter, `joinTo` the
owner's. -/
def hasManyCompute (env : ModelEnv) (σ : MState) (owner target : Nat) (opts : RelOptions) :
    (String × RelationMapping) × MState :=
  let nm := jsOr opts.name (plural (camelCase (env target).name))
  let p1 := defaultOr opts.joinFrom
    (fun s => ((tableName env s target).1 ++ "." ++ camelCase (env owner).name
        ++ upperFirst (env owner).idColumn, (tableName env s target).2)) σ
  let p2 := defaultOr opts.joinTo
    (fun s => ((tableName env s owner).1 ++ "." ++ (env owner).idColumn,
        (tableName env s owner).2)) p1.2
  ((nm, { relation := RelKind.HasManyRelation, modelClass := target,
          filter := jsOrNull opts.filter, joinFrom := p1.1, joinTo := p2.1,
          through := none }), p2.2)

/-- `static hasMany`: compute the mapping, then store it under its name. -/
def hasMany (env : ModelEnv) (σ : MState) (owner target : Nat) (opts : RelOptions) :
    Option MState :=
  let p := hasManyCompute env σ owner target opts
  storeMapping env p.2 owner p.1.1 p.1.2

/-- The computation part of `static hasManyThrough(model, options)`.
Evaluation order follows the source: `name`; `joinFrom` (owner's table
getter); `joinTo` (target's table getter); `options.through || {}`; then the
join-table resolution — given `through.model`, the table is
`through.table || throughClass.tableName` (getter evaluated only when no
truthy table override), else `through.table || ownerName_targetName`; then
`through.from` / `through.to` defaults built from the resolved join table. -/
def hasManyThroughCompute (env : ModelEnv) (σ : MState) (owner target : Nat)
    (opts : RelOptions) : (String × RelationMapping) × MState :=
  let nm := jsOr opts.name (plural (camelCase (env target).name))
  let p1 := defaultOr opts.joinFrom
    (fun s => ((tableName env s owner).1 ++ "." ++ (env owner).idColumn,
        (tableName env s owner).2)) σ
  let p2 := defaultOr opts.joinTo
    (fun s => ((tableName env s target).1 ++ "." ++ (env target).idColumn,
        (tableName env s target).2)) p1.2
  let th := opts.through.getD emptyThroughOptions
  let q :=
    match th.model with
    | some mc =>
      let t := defaultOr th.table (fun s => tableName env s mc) p2.2
      ((some mc, t.1), t.2)
    | none =>
      ((none, jsOr th.table ((env owner).name ++ "_" ++ (env target).name)), p2.2)
  let throughFrom := jsOr th.fromCol
    (q.1.2 ++ "." ++ camelCase (env owner).name ++ upperFirst (env owner).idColumn)
  let throughTo := jsOr th.toCol
    (q.1.2 ++ "." ++ camelCase (env target).name ++ upperFirst (env target).idColumn)
  ((nm, { relation := RelKind.ManyToManyRelation, modelClass := target,
          filter := jsOrNull opts.filter, joinFrom := p1.1, joinTo := p2.1,
          through := some { throughFrom := throughFrom, throughTo := throughTo,
                            modelClass := q.1.1, extra := th.extra,
                            filter := jsOrNull th.filter } }), q.2)

/-- `static hasManyThrough`: compute the mapping, then store it under its
name. -/
def hasManyThrough (env : ModelEnv) (σ : MState) (owner target : Nat) (opts : RelOptions) :
    Option MState :=
  let p := hasManyThroughCompute env σ owner target opts
  storeMapping env p.2 owner p.1.1 p.1.2

/-- Execute one call of a `$relations` hook body with `this = c`. -/
def execDecl (env : ModelEnv) (σ : MState) (c : Nat) : RelDecl → Option MState
  | RelDecl.belongsTo t o => belongsTo env σ c t o
  | RelDecl.hasOne t o => hasOne env σ c t o
  | RelDecl.hasMany t o => hasMany env σ c t o
  | RelDecl.hasManyThrough t o => hasManyThrough env σ c t o

/-- Execute a `$relations` hook body in order. -/
def execDecls (env : ModelEnv) (σ : MState) (c : Nat) : List RelDecl → Option MState
  | [] => some σ
  | d :: ds =>
    match execDecl env σ c d with
    | some σ' => execDecls env σ' c ds
    | none => none

/-- Method lookup of `this.$relations` along the prototype chain. -/
def chainHook (env : ModelEnv) : List Nat → Option (List RelDecl)
  | [] => none
  | i :: is =>
    match (env i).hook with
    | some ds => some ds
    | none => chainHook env is

/-- The `relationMappings` static getter:
`if (this._relationMappings) return this._relationMappings;` (a prototype-chain
read — a populated slot anywhere up the chain is returned as is), else assign
the own slot `{}`, run `this.$relations()` (method lookup up the chain,
executed with `this = c`), and return the re-read slot.  The `Nat` component
of the result counts the hook invocations performed by this call (`0` or
`1`); `none` models the thrown exceptions of the source (no `$relations`
defined, or a store on an undefined slot). -/
def relationMappings (env : ModelEnv) (σ : MState) (c : Nat) :
    Option (Mappings × MState × Nat) :=
  match chainFind σ.rm (chainOf env c) with
  | some m => some (m, σ, 0)
  | none =>
    match chainHook env (chainOf env c) with
    | none => none
    | some ds =>
      match execDecls env { σ with rm := alistPut σ.rm c [] } c ds with
      | some σ₂ =>
        match chainFind σ₂.rm (chainOf env c) with
        | some m => some (m, σ₂, 1)
        | none => none
      | none => none

/-- The operation context handed to the lifecycle hooks (`context.dontTouch`
is the skip-touch flag). -/
structure OpContext where
  dontTouch : Bool := false
deriving DecidableEq, Repr

/-- The timestamp-bearing fields of a record instance; `rest` stands for all
other fields, which the hooks never touch. -/
structure RecordData where
  createdAt : Option Nat := none
  updatedAt : Option Nat := none
  rest : List (String × String) := []
deriving DecidableEq, Repr

/-- `$beforeInsert(context)`: after the persistence engine's no-op base hook,
if `this.constructor.timestamps && !context.dontTouch`, set
`this.createdAt = new Date()` then `this.updatedAt = new Date()`; the two
clock reads are the arguments `t1` and `t2`. -/
def beforeInsert (env : ModelEnv) (c : Nat) (ctx : OpContext) (t1 t2 : Nat)
    (r : RecordData) : RecordData :=
  if (env c).timestamps && !ctx.dontTouch then
    { r with createdAt := some t1, updatedAt := some t2 }
  else r

/-- `$beforeUpdate(context)`: after the persistence engine's no-op base hook,
if `this.constructor.timestamps && !context.dontTouch`, set
`this.updatedAt = new Date()`; the clock read is the argument `t`. -/
def beforeUpdate (env : ModelEnv) (c : Nat) (ctx : OpContext) (t : Nat)
    (r : RecordData) : RecordData :=
  if (env c).timestamps && !ctx.dontTouch then
    { r with updatedAt := some t }
  else r

/-- A small concrete program: class `0` is `Person` (has many pets), class `1`
is `Pet`, class `2` is `Employee`, a specialization of `Person` with its own
`$relations` hook, and class `3` is `Join`, a join-table model. -/
def demoEnv : ModelEnv := fun c =>
  if c = 0 then { name := "Person", hook := some [RelDecl.hasMany 1 defaultOpts] }
  else if c = 1 then { name := "Pet", hook := some [] }
  else if c = 2 then { name := "Employee", ancestors := [0],
                       hook := some [RelDecl.hasMany 1 defaultOpts] }
  else { name := "Join", hook := none }

/-- The relation graph `Person` resolves to in `demoEnv`. -/
def demoMappings : Mappings :=
  [("pets", { relation := RelKind.HasManyRelation, modelClass := 1, filter := none,
              joinFrom := "Pet.personId", joinTo := "Person.id", through := none })]

/-- The state after `Person`'s relation graph has been resolved from the
initial state in `demoEnv`. -/
def demoState : MState :=
  { tn := [(1, "Pet"), (0, "Person")], rm := [(0, demoMappings)] }

theorem alistPut_lookup_self {κ β : Type} [BEq κ] [LawfulBEq κ]
    (l : List (κ × β)) (k : κ) (v : β) : (alistPut l k v).lookup k = some v := by
  induction l with
  | nil => simp [alistPut, List.lookup]
  | cons p rest ih =>
    by_cases h : p.1 = k
    · simp [alistPut, h, List.lookup]
    · have hb : (p.1 == k) = false := beq_eq_false_iff_ne.mpr h
      have hb' : (k == p.1) = false := beq_eq_false_iff_ne.mpr (Ne.symm h)
      simp [alistPut, hb, List.lookup, hb', ih]

theorem alistPut_lookup_ne {κ β : Type} [BEq κ] [LawfulBEq κ]
    (l : List (κ × β)) (k k' : κ) (v : β) (h : k' ≠ k) :
    (alistPut l k v).lookup k' = l.lookup k' := by
  induction l with
  | nil =>
    have hb : (k' == k) = false := beq_eq_false_iff_ne.mpr h
    simp [alistPut, List.lookup, hb]
  | cons p rest ih =>
    by_cases hp : p.1 = k
    · have hb : (k' == k) = false := beq_eq_false_iff_ne.mpr h
      simp [alistPut, hp, List.lookup, hb]
    · have hbp : (p.1 == k) = false := beq_eq_false_iff_ne.mpr hp
      cases hkp : (k' == p.1) <;> simp [alistPut, hbp, List.lookup, hkp, ih]

theorem chainFind_cons_some {β : Type} (l : List (Nat × β)) (i : Nat) (is : List Nat)
    (v : β) (h : l.lookup i = some v) : chainFind l (i :: is) = some v := by
  simp [chainFind, h]

theorem defaultOr_rm (o : Option String) (d : MState → String × MState) (σ : MState)
    (h : ∀ s, ((d s).2).rm = s.rm) : ((defaultOr o d σ).2).rm = σ.rm := by
  cases o with
  | none => exact h σ
  | some s =>
    by_cases hs : s = ""
    · simpa [defaultOr, hs] using h σ
    · simp [defaultOr, hs]

theorem belongsToCompute_rm (env : ModelEnv) (σ : MState) (o t : Nat) (opts : RelOptions) :
    ((belongsToCompute env σ o t opts).2).rm = σ.rm := by
  simp only [belongsToCompute]
  exact (defaultOr_rm _ _ _ (fun s => rfl)).trans (defaultOr_rm _ _ _ (fun s => rfl))

theorem hasOneCompute_rm (env : ModelEnv) (σ : MState) (o t : Nat) (opts : RelOptions) :
    ((hasOneCompute env σ o t opts).2).rm = σ.rm := by
  simp only [hasOneCompute]
  exact (defaultOr_rm _ _ _ (fun s => rfl)).trans (defaultOr_rm _ _ _ (fun s => rfl))

theorem hasManyCompute_rm (env : ModelEnv) (σ : MState) (o t : Nat) (opts : RelOptions) :
    ((hasManyCompute env σ o t opts).2).rm = σ.rm := by
  simp only [hasManyCompute]
  exact (defaultOr_rm _ _ _ (fun s => rfl)).trans (defaultOr_rm _ _ _ (fun s => rfl))

theorem hasManyThroughCompute_rm (env : ModelEnv) (σ : MState) (o t : Nat)
    (opts : RelOptions) : ((hasManyThroughCompute env σ o t opts).2).rm = σ.rm := by
  simp only [hasManyThroughCompute]
  cases hm : (opts.through.getD emptyThroughOptions).model with
  | some mc =>
    simp only [hm]
    exact ((defaultOr_rm _ _ _ (fun s => rfl)).trans
      (defaultOr_rm _ _ _ (fun s => rfl))).trans (defaultOr_rm _ _ _ (fun s => rfl))
  | none =>
    simp only [hm]
    exact (defaultOr_rm _ _ _ (fun s => rfl)).trans (defaultOr_rm _ _ _ (fun s => rfl))

theorem storeMapping_of_own (env : ModelEnv) (σ : MState) (c : Nat) (nm : String)
    (m : RelationMapping) (ms : Mappings) (h : σ.rm.lookup c = some ms) :
    storeMapping env σ c nm m
      = some { σ with rm := alistPut σ.rm c (alistPut ms nm m) } := by
  simp [storeMapping, chainOf, findOwnerSlot, h]

theorem builderStore_preserves (env : ModelEnv) (c : Nat) (σ0 σp : MState) (nm : String)
    (m : RelationMapping) (ms : Mappings) (hrm : σp.rm = σ0.rm)
    (h : σ0.rm.lookup c = some ms) :
    ∃ σ', storeMapping env σp c nm m = some σ'
      ∧ (∃ ms', σ'.rm.lookup c = some ms')
      ∧ ∀ c', c' ≠ c → σ'.rm.lookup c' = σ0.rm.lookup c' := by
  have h2 : σp.rm.lookup c = some ms := by rw [hrm]; exact h
  refine ⟨{ σp with rm := alistPut σp.rm c (alistPut ms nm m) },
    storeMapping_of_own env σp c nm m ms h2, ⟨alistPut ms nm m, ?_⟩, ?_⟩
  · exact alistPut_lookup_self σp.rm c (alistPut ms nm m)
  · intro c' hc'
    show (alistPut σp.rm c (alistPut ms nm m)).lookup c' = σ0.rm.lookup c'
    rw [alistPut_lookup_ne σp.rm c c' (alistPut ms nm m) hc', hrm]

theorem execDecl_preserves (env : ModelEnv) (c : Nat) (d : RelDecl) (σ : MState)
    (ms : Mappings) (h : σ.rm.lookup c = some ms) :
    ∃ σ', execDecl env σ c d = some σ'
      ∧ (∃ ms', σ'.rm.lookup c = some ms')
      ∧ ∀ c', c' ≠ c → σ'.rm.lookup c' = σ.rm.lookup c' := by
  cases d with
  | belongsTo t o =>
    exact builderStore_preserves env c σ (belongsToCompute env σ c t o).2
      (belongsToCompute env σ c t o).1.1 (belongsToCompute env σ c t o).1.2 ms
      (belongsToCompute_rm env σ c t o) h
  | hasOne t o =>
    exact builderStore_preserves env c σ (hasOneCompute env σ c t o).2
      (hasOneCompute env σ c t o).1.1 (hasOneCompute env σ c t o).1.2 ms
      (hasOneCompute_rm env σ c t o) h
  | hasMany t o =>
    exact builderStore_preserves env c σ (hasManyCompute env σ c t o).2
      (hasManyCompute env σ c t o).1.1 (hasManyCompute env σ c t o).1.2 ms
      (hasManyCompute_rm env σ c t o) h
  | hasManyThrough t o =>
    exact builderStore_preserves env c σ (hasManyThroughCompute env σ c t o).2
      (hasManyThroughCompute env σ c t o).1.1 (hasManyThroughCompute env σ c t o).1.2 ms
      (hasManyThroughCompute_rm env σ c t o) h

theorem execDecls_preserves (env : ModelEnv) (c : Nat) :
    ∀ (ds : List RelDecl) (σ : MState) (ms : Mappings), σ.rm.lookup c = some ms →
    ∃ σ', execDecls env σ c ds = some σ'
      ∧ (∃ ms', σ'.rm.lookup c = some ms')
      ∧ ∀ c', c' ≠ c → σ'.rm.lookup c' = σ.rm.lookup c'
  | [], σ, ms, h => ⟨σ, rfl, ⟨ms, h⟩, fun _ _ => rfl⟩
  | d :: ds, σ, ms, h => by
    obtain ⟨σ1, he, ⟨ms1, h1⟩, hf⟩ := execDecl_preserves env c d σ ms h
    obtain ⟨σ2, he2, hs2, hf2⟩ := execDecls_preserves env c ds σ1 ms1 h1
    refine ⟨σ2, ?_, hs2, ?_⟩
    · simp [execDecls, he, he2]
    · intro c' hc'
      rw [hf2 c' hc', hf c' hc']

/-- C2: Memoized lazy initialization — for every descriptor whose cache slot
(along its whole prototype chain) is empty and whose relation-declaration
hook resolves, requesting the relation-mapping graph twice returns identical
results and an unchanged state, and the declaration hook is invoked exactly
once across both requests, on the first request only, which captures every
mapping produced during that single invocation into the cache slot. -/
theorem relationMappings_memoized (env : ModelEnv) (σ : MState) (c : Nat) (ds : List RelDecl)
    (h1 : chainFind σ.rm (chainOf env c) = none)
    (h2 : chainHook env (chainOf env c) = some ds) :
    ∃ m σ₂, relationMappings env σ c = some (m, σ₂, 1)
      ∧ relationMappings env σ₂ c = some (m, σ₂, 0) := by
  have hown : (alistPut σ.rm c ([] : Mappings)).lookup c = some [] :=
    alistPut_lookup_self σ.rm c []
  obtain ⟨σ₂, he, ⟨ms', hs⟩, hf⟩ :=
    execDecls_preserves env c ds { σ with rm := alistPut σ.rm c [] } [] hown
  have hcf : chainFind σ₂.rm (chainOf env c) = some ms' :=
    chainFind_cons_some σ₂.rm c (env c).ancestors ms' hs
  refine ⟨ms', σ₂, ?_, ?_⟩
  · simp [relationMappings, h1, h2, he, hcf]
  · simp [relationMappings, hcf]

/-- Witness for C2: in the demo program, resolving `Person`'s relation graph
twice from the initial state invokes the hook once, on the first call only,
and both calls agree. -/
theorem relationMappings_memoized_witness :
    ∃ m σ₂, relationMappings demoEnv initState 0 = some (m, σ₂, 1)
      ∧ relationMappings demoEnv σ₂ 0 = some (m, σ₂, 0) :=
  relationMappings_memoized demoEnv initState 0 [RelDecl.hasMany 1 defaultOpts] rfl rfl

/-- C1 (amended): storing or overwriting a mapping during one descriptor's
relation-graph resolution leaves every other descriptor's own
relation-mapping slot unchanged — resolution writes only the resolving
descriptor's own slot.  (The unamended isolation half of the claim is false:
by prototype-chain property lookup, a subtype whose parent's slot is already
populated returns the parent's cached set without invoking its own hook; see
the counterexample.) -/
theorem relationMappings_slot_isolated (env : ModelEnv) (σ : MState) (c c' : Nat)
    (m : Mappings) (σ₂ : MState) (k : Nat)
    (hne : c' ≠ c) (h : relationMappings env σ c = some (m, σ₂, k)) :
    σ₂.rm.lookup c' = σ.rm.lookup c' := by
  cases hcf : chainFind σ.rm (chainOf env c) with
  | some m0 =>
    simp [relationMappings, hcf] at h
    rw [← h.2.1]
  | none =>
    cases hh : chainHook env (chainOf env c) with
    | none => simp [relationMappings, hcf, hh] at h
    | some ds =>
      cases he : execDecls env { σ with rm := alistPut σ.rm c [] } c ds with
      | none => simp [relationMappings, hcf, hh, he] at h
      | some σ₂' =>
        cases hcf2 : chainFind σ₂'.rm (chainOf env c) with
        | none => simp [relationMappings, hcf, hh, he, hcf2] at h
        | some m' =>
          simp [relationMappings, hcf, hh, he, hcf2] at h
          obtain ⟨σ'', he'', _, hf⟩ := execDecls_preserves env c ds
            { σ with rm := alistPut σ.rm c [] } [] (alistPut_lookup_self σ.rm c [])
          rw [he] at he''
          cases he''
          rw [← h.2.1]
          rw [hf c' hne]
          show (alistPut σ.rm c []).lookup c' = σ.rm.lookup c'
          exact alistPut_lookup_ne σ.rm c c' [] hne

/-- Witness for the amended C1: resolving `Person`'s graph leaves `Pet`'s
slot exactly as it was. -/
theorem relationMappings_slot_isolated_witness :
    demoState.rm.lookup 1 = initState.rm.lookup 1 :=
  relationMappings_slot_isolated demoEnv initState 0 1 demoMappings demoState 1
    (by decide) (by decide)

/-- Counterexample to C1 as stated: `Employee` (class 2) specializes `Person`
(class 0) and has its own declaration hook, yet after `Person`'s graph is
resolved, requesting `Employee`'s graph performs zero hook invocations,
returns `Person`'s cached mapping set (with the foreign key `"Pet.personId"`
derived from the parent's name), and leaves `Employee`'s own slot empty —
the cache slot is inherited through the prototype chain. -/
theorem relation_cache_inherited_counterexample :
    relationMappings demoEnv initState 0 = some (demoMappings, demoState, 1)
    ∧ relationMappings demoEnv demoState 2 = some (demoMappings, demoState, 0)
    ∧ demoState.rm.lookup 2 = none
    ∧ (demoEnv 2).hook = some [RelDecl.hasMany 1 defaultOpts]
    ∧ demoMappings.lookup "pets"
        = some { relation := RelKind.HasManyRelation, modelClass := 1, filter := none,
                 joinFrom := "Pet.personId", joinTo := "Person.id", through := none } := by
  decide

/-- C3: ReferenceToOne defaults — `belongsTo` with no overrides produces
`from = target.tableName ++ "." ++ camelCase(owner.name) ++
upperFirst(owner.idColumn)` and `to = owner.tableName ++ "." ++
owner.idColumn`; in particular owner `Pet`, target `Person` yield
`from = "Person.petId"`, `to = "Pet.id"`, stored under the name
`"person"`. -/
theorem belongsTo_defaults (env : ModelEnv) (σ : MState) (o t : Nat) :
    ((belongsToCompute env σ o t defaultOpts).1.2.joinFrom
      = (tableName env σ t).1 ++ "." ++ camelCase (env o).name ++ upperFirst (env o).idColumn)
    ∧ ((belongsToCompute env σ o t defaultOpts).1.2.joinTo
      = (tableName env (tableName env σ t).2 o).1 ++ "." ++ (env o).idColumn)
    ∧ (belongsToCompute demoEnv initState 1 0 defaultOpts).1.2.joinFrom = "Person.petId"
    ∧ (belongsToCompute demoEnv initState 1 0 defaultOpts).1.2.joinTo = "Pet.id"
    ∧ belongsTo demoEnv (setRelationMappings initState 1 []) 1 0 defaultOpts
      = some { tn := [(0, "Person"), (1, "Pet")],
               rm := [(1, [("person",
                 { relation := RelKind.BelongsToOneRelation, modelClass := 0, filter := none,
                   joinFrom := "Person.petId", joinTo := "Pet.id", through := none })])] } :=
  ⟨rfl, rfl, by decide, by decide, by decide⟩

/-- C4: OwnsOne defaults — `hasOne` with no overrides produces the singular
relation name `camelCase(target.name)`, `from = owner.tableName ++ "." ++
camelCase(target.name) ++ upperFirst(target.idColumn)` and
`to = target.tableName ++ "." ++ target.idColumn`; in particular owner
`Person`, target `Pet` yield name `"pet"`, `from = "Person.petId"`,
`to = "Pet.id"`. -/
theorem hasOne_defaults (env : ModelEnv) (σ : MState) (o t : Nat) :
    ((hasOneCompute env σ o t defaultOpts).1.1 = camelCase (env t).name)
    ∧ ((hasOneCompute env σ o t defaultOpts).1.2.joinFrom
      = (tableName env σ o).1 ++ "." ++ camelCase (env t).name ++ upperFirst (env t).idColumn)
    ∧ ((hasOneCompute env σ o t defaultOpts).1.2.joinTo
      = (tableName env (tableName env σ o).2 t).1 ++ "." ++ (env t).idColumn)
    ∧ (hasOneCompute demoEnv initState 0 1 defaultOpts).1.1 = "pet"
    ∧ (hasOneCompute demoEnv initState 0 1 defaultOpts).1.2.joinFrom = "Person.petId"
    ∧ (hasOneCompute demoEnv initState 0 1 defaultOpts).1.2.joinTo = "Pet.id" :=
  ⟨rfl, rfl, rfl, by decide, by decide, by decide⟩

/-- C5: OwnsMany defaults — `hasMany` with no overrides produces the plural
relation name `plural(camelCase(target.name))`, `from = target.tableName ++
"." ++ camelCase(owner.name) ++ upperFirst(owner.idColumn)` and
`to = owner.tableName ++ "." ++ owner.idColumn`; in particular owner
`Person`, target `Pet` yield name `"pets"`, `from = "Pet.personId"`,
`to = "Person.id"`. -/
theorem hasMany_defaults (env : ModelEnv) (σ : MState) (o t : Nat) :
    ((hasManyCompute env σ o t defaultOpts).1.1 = plural (camelCase (env t).name))
    ∧ ((hasManyCompute env σ o t defaultOpts).1.2.joinFrom
      = (tableName env σ t).1 ++ "." ++ camelCase (env o).name ++ upperFirst (env o).idColumn)
    ∧ ((hasManyCompute env σ o t defaultOpts).1.2.joinTo
      = (tableName env (tableName env σ t).2 o).1 ++ "." ++ (env o).idColumn)
    ∧ (hasManyCompute demoEnv initState 0 1 defaultOpts).1.1 = "pets"
    ∧ (hasManyCompute demoEnv initState 0 1 defaultOpts).1.2.joinFrom = "Pet.personId"
    ∧ (hasManyCompute demoEnv initState 0 1 defaultOpts).1.2.joinTo = "Person.id" :=
  ⟨rfl, rfl, rfl, by decide, by decide, by decide⟩

/-- C6: OwnsManyThroughJoin join-table resolution — the join table is the
explicit (truthy) table override when given, else the explicit
through-model's resolved table name, else `ownerName ++ "_" ++ targetName`;
the through columns default to `joinTable ++ "." ++ camelCase(name) ++
upperFirst(idColumn)` applied to owner and target respectively; in
particular `Person` to `Pet` with no through-options yields join table
`"Person_Pet"`, `through.from = "Person_Pet.personId"`,
`through.to = "Person_Pet.petId"`. -/
theorem hasManyThrough_join_resolution (env : ModelEnv) (σ : MState) (o t mc : Nat)
    (tbl : String) (htbl : tbl ≠ "") :
    ((hasManyThroughCompute env σ o t defaultOpts).1.2.through
      = some { throughFrom := (env o).name ++ "_" ++ (env t).name ++ "."
                 ++ camelCase (env o).name ++ upperFirst (env o).idColumn,
               throughTo := (env o).name ++ "_" ++ (env t).name ++ "."
                 ++ camelCase (env t).name ++ upperFirst (env t).idColumn,
               modelClass := none, extra := none, filter := none })
    ∧ ((hasManyThroughCompute env σ o t
          { through := some { model := some mc, table := some tbl } }).1.2.through
      = some { throughFrom := tbl ++ "." ++ camelCase (env o).name ++ upperFirst (env o).idColumn,
               throughTo := tbl ++ "." ++ camelCase (env t).name ++ upperFirst (env t).idColumn,
               modelClass := some mc, extra := none, filter := none })
    ∧ ((hasManyThroughCompute env σ o t
          { through := some { table := some tbl } }).1.2.through
      = some { throughFrom := tbl ++ "." ++ camelCase (env o).name ++ upperFirst (env o).idColumn,
               throughTo := tbl ++ "." ++ camelCase (env t).name ++ upperFirst (env t).idColumn,
               modelClass := none, extra := none, filter := none })
    ∧ ((hasManyThroughCompute env σ o t
          { through := some { model := some mc } }).1.2.through
      = some { throughFrom :=
                 (tableName env (tableName env (tableName env σ o).2 t).2 mc).1 ++ "."
                   ++ camelCase (env o).name ++ upperFirst (env o).idColumn,
               throughTo :=
                 (tableName env (tableName env (tableName env σ o).2 t).2 mc).1 ++ "."
                   ++ camelCase (env t).name ++ upperFirst (env t).idColumn,
               modelClass := some mc, extra := none, filter := none })
    ∧ (hasManyThroughCompute demoEnv initState 0 1 defaultOpts).1.2.through
      = some { throughFrom := "Person_Pet.personId", throughTo := "Person_Pet.petId",
               modelClass := none, extra := none, filter := none } := by
  refine ⟨rfl, ?_, ?_, rfl, by decide⟩
  · simp [hasManyThroughCompute, defaultOr, htbl, jsOr, jsOrNull, emptyThroughOptions]
  · simp [hasManyThroughCompute, defaultOr, htbl, jsOr, jsOrNull, emptyThroughOptions]

/-- Witness for C6: the explicit table override `"J"` wins over the given
through-model (class 3, `Join`). -/
theorem hasManyThrough_join_resolution_witness :
    (hasManyThroughCompute demoEnv initState 0 1
        { through := some { model := some 3, table := some "J" } }).1.2.through
      = some { throughFrom := "J.personId", throughTo := "J.petId",
               modelClass := some 3, extra := none, filter := none } :=
  (hasManyThrough_join_resolution demoEnv initState 0 1 3 "J" (by decide)).2.1

/-- C7: Timestamp stamping — with timestamps enabled and no skip flag, the
pre-insert hook sets both `createdAt` and `updatedAt` to clock values lying
between the call's start and return, and the pre-update hook sets
`updatedAt` within the same bounds while leaving `createdAt` exactly as it
was before the call. -/
theorem timestamps_stamped (env : ModelEnv) (c : Nat) (ctx : OpContext) (r : RecordData)
    (tStart tEnd t1 t2 t3 : Nat)
    (hT : (env c).timestamps = true) (hD : ctx.dontTouch = false)
    (h1 : tStart ≤ t1) (h12 : t1 ≤ t2) (h2 : t2 ≤ tEnd)
    (h3 : tStart ≤ t3) (h4 : t3 ≤ tEnd) :
    ((beforeInsert env c ctx t1 t2 r).createdAt = some t1 ∧ tStart ≤ t1 ∧ t1 ≤ tEnd)
    ∧ ((beforeInsert env c ctx t1 t2 r).updatedAt = some t2 ∧ tStart ≤ t2 ∧ t2 ≤ tEnd)
    ∧ (beforeUpdate env c ctx t3 r).createdAt = r.createdAt
    ∧ ((beforeUpdate env c ctx t3 r).updatedAt = some t3 ∧ tStart ≤ t3 ∧ t3 ≤ tEnd) := by
  refine ⟨⟨?_, h1, le_trans h12 h2⟩, ⟨?_, le_trans h1 h12, h2⟩, ?_, ⟨?_, h3, h4⟩⟩ <;>
    simp [beforeInsert, beforeUpdate, hT, hD]

/-- Witness for C7: a concrete pre-insert call with start `10`, clock reads
`11` and `12`, and return `13` stamps `createdAt = 11` within bounds. -/
theorem timestamps_stamped_witness :
    (beforeInsert demoEnv 0 {} 11 12 { createdAt := some 3, updatedAt := some 4 }).createdAt
        = some 11
      ∧ 10 ≤ 11 ∧ 11 ≤ 13 :=
  (timestamps_stamped demoEnv 0 {} { createdAt := some 3, updatedAt := some 4 }
    10 13 11 12 12 rfl rfl (by decide) (by decide) (by decide) (by decide) (by decide)).1

/-- C8: Skip-touch frame condition — with the skip flag set (or timestamps
disabled), the pre-insert and pre-update hooks leave the record, and in
particular its `createdAt` and `updatedAt` fields, unmodified. -/
theorem skip_touch_frame (env : ModelEnv) (c : Nat) (ctx : OpContext) (r : RecordData)
    (t1 t2 t3 : Nat) (h : ctx.dontTouch = true ∨ (env c).timestamps = false) :
    beforeInsert env c ctx t1 t2 r = r ∧ beforeUpdate env c ctx t3 r = r := by
  rcases h with h | h <;> simp [beforeInsert, beforeUpdate, h]

/-- Witness for C8: a concrete record passes through both hooks unchanged
when the context carries the skip flag. -/
theorem skip_touch_frame_witness :
    beforeInsert demoEnv 0 { dontTouch := true } 1 2
        { createdAt := some 3, updatedAt := some 4 }
      = { createdAt := some 3, updatedAt := some 4 }
    ∧ beforeUpdate demoEnv 0 { dontTouch := true } 5
        { createdAt := some 3, updatedAt := some 4 }
      = { createdAt := some 3, updatedAt := some 4 } :=
  skip_touch_frame demoEnv 0 { dontTouch := true }
    { createdAt := some 3, updatedAt := some 4 } 1 2 5 (Or.inl rfl)

/-- C9 (amended): an empty-string explicit join override is falsy and is
treated exactly like an absent override — it is silently replaced by the
convention default in every relation builder; no error is raised (the code
defines no `InvalidJoinSpecError`). -/
theorem empty_join_override_ignored (env : ModelEnv) (σ : MState) (o t : Nat)
    (opts : RelOptions) :
    (belongsToCompute env σ o t { opts with joinFrom := some "" }
        = belongsToCompute env σ o t { opts with joinFrom := none })
    ∧ (belongsToCompute env σ o t { opts with joinTo := some "" }
        = belongsToCompute env σ o t { opts with joinTo := none })
    ∧ (hasOneCompute env σ o t { opts with joinFrom := some "" }
        = hasOneCompute env σ o t { opts with joinFrom := none })
    ∧ (hasOneCompute env σ o t { opts with joinTo := some "" }
        = hasOneCompute env σ o t { opts with joinTo := none })
    ∧ (hasManyCompute env σ o t { opts with joinFrom := some "" }
        = hasManyCompute env σ o t { opts with joinFrom := none })
    ∧ (hasManyCompute env σ o t { opts with joinTo := some "" }
        = hasManyCompute env σ o t { opts with joinTo := none })
    ∧ (hasManyThroughCompute env σ o t { opts with joinFrom := some "" }
        = hasManyThroughCompute env σ o t { opts with joinFrom := none })
    ∧ (hasManyThroughCompute env σ o t { opts with joinTo := some "" }
        = hasManyThroughCompute env σ o t { opts with joinTo := none }) :=
  ⟨rfl, rfl, rfl, rfl, rfl, rfl, rfl, rfl⟩

/-- Counterexample to C9 as stated: declaring `Pet.belongsTo(Person)` with
both explicit join overrides set to the empty string does not fail — the
declaration succeeds and stores the convention defaults `"Person.petId"` /
`"Pet.id"` instead. -/
theorem empty_join_override_counterexample :
    belongsTo demoEnv (setRelationMappings initState 1 []) 1 0
        { joinFrom := some "", joinTo := some "" }
      = some { tn := [(0, "Person"), (1, "Pet")],
               rm := [(1, [("person",
                 { relation := RelKind.BelongsToOneRelation, modelClass := 0, filter := none,
                   joinFrom := "Person.petId", joinTo := "Pet.id", through := none })])] } := by
  decide

/-- C10: Implicit tableName fallback — after assigning the falsy empty
string to `tableName`, the next `tableName` read returns the descriptor's
own class name and caches it, so the falsy assignment has no lasting
effect. -/
theorem tableName_falsy_fallback (env : ModelEnv) (σ : MState) (c : Nat) :
    tableName env (setTableName σ c "") c
      = ((env c).name, setTableName (setTableName σ c "") c (env c).name) := by
  have h2 : chainFind (alistPut σ.tn c "") (chainOf env c) = some "" :=
    chainFind_cons_some (alistPut σ.tn c "") c (env c).ancestors ""
      (alistPut_lookup_self σ.tn c "")
  simp [tableName, setTableName, h2]

end Xorm
